import Mathlib

/-
Verification of the pastebin-rs bounded clipboard store
(src/pastebin-server/src/main.rs), shallowly embedded in Lean 4.
The Rust `Vec<Entry>` becomes a `List Entry`; `Vec::remove(0)` on an
empty vector panics in Rust, so `Clipboard.add` returns an `Option`.
-/

namespace PastebinRs

/-- Rust struct Entry (main.rs lines 23-26): a single clipboard entry
holding a text payload. -/
structure Entry where
  data : String
  deriving DecidableEq, Repr

/-- Rust struct Clipboard (main.rs lines 28-32): a queue of entries and a
fixed capacity. -/
structure Clipboard where
  queue : List Entry
  capacity : Nat
  deriving DecidableEq, Repr

/-- Rust const CLIPBOARD_SIZE (main.rs line 19). -/
def CLIPBOARD_SIZE : Nat := 10

/-- Clipboard::add (main.rs lines 35-40): when the queue is at capacity the
head is removed before the push. Rust `Vec::remove(0)` panics on an empty
vector, which happens exactly when `capacity = 0`; the panic is modelled as
`none`. -/
def Clipboard.add (c : Clipboard) (e : Entry) : Option Clipboard :=
  if c.queue.length = c.capacity then
    match c.queue with
    | [] => none
    | _ :: t => some { queue := t ++ [e], capacity := c.capacity }
  else
    some { queue := c.queue ++ [e], capacity := c.capacity }

/-- Clipboard::get_entries (main.rs lines 42-44): returns a clone of the
queue, oldest entry first. -/
def Clipboard.get_entries (c : Clipboard) : List Entry :=
  c.queue

/-- Default for Clipboard (main.rs lines 47-54): empty queue, capacity
CLIPBOARD_SIZE. -/
def Clipboard.mkDefault : Clipboard :=
  { queue := [], capacity := CLIPBOARD_SIZE }

/-- A bounded store with the given capacity that starts empty. -/
def emptyClipboard (cap : Nat) : Clipboard :=
  { queue := [], capacity := cap }

/-- Run a sequence of Clipboard::add calls; the first panic aborts the run. -/
def Clipboard.addAll (c : Clipboard) : List Entry → Option Clipboard
  | [] => some c
  | e :: rest =>
    match c.add e with
    | none => none
    | some c2 => c2.addAll rest

/-- The HTTP get_entries handler (main.rs lines 107-111) viewed as a state
transformer: it returns the snapshot and the (unchanged) store. -/
def Clipboard.snapshotOp (c : Clipboard) : List Entry × Clipboard :=
  (c.get_entries, c)

/-- States of the bounded store reachable from the empty store with a given
capacity by any sequence of add calls (get_entries does not change state). -/
inductive Reachable : Nat → Clipboard → Prop where
  | base (cap : Nat) : Reachable cap (emptyClipboard cap)
  | step (cap : Nat) (c c2 : Clipboard) (e : Entry) :
      Reachable cap c → c.add e = some c2 → Reachable cap c2

/-- When the queue is not at capacity, add appends to the tail. -/
theorem Clipboard.add_of_ne (c : Clipboard) (e : Entry)
    (h : c.queue.length ≠ c.capacity) :
    c.add e = some { queue := c.queue ++ [e], capacity := c.capacity } := by
  simp [Clipboard.add, h]

/-- When the queue is at capacity and nonempty, add evicts the head and
appends to the tail. -/
theorem Clipboard.add_of_eq (c : Clipboard) (e hd : Entry) (t : List Entry)
    (hq : c.queue = hd :: t) (h : c.queue.length = c.capacity) :
    c.add e = some { queue := t ++ [e], capacity := c.capacity } := by
  rw [hq] at h
  unfold Clipboard.add
  rw [hq, if_pos h]

/-- When the queue is empty and the capacity is 0, add panics. -/
theorem Clipboard.add_of_nil (c : Clipboard) (e : Entry)
    (hq : c.queue = []) (h : c.queue.length = c.capacity) :
    c.add e = none := by
  rw [hq] at h
  unfold Clipboard.add
  rw [hq, if_pos h]

/-- Inversion for a successful add: capacity is preserved, and the new queue
is either an eviction step or a plain append. -/
theorem Clipboard.add_some {c c2 : Clipboard} {e : Entry}
    (h : c.add e = some c2) :
    c2.capacity = c.capacity ∧
      ((c.queue.length = c.capacity ∧ c.queue ≠ [] ∧
          c2.queue = c.queue.tail ++ [e]) ∨
        (c.queue.length ≠ c.capacity ∧ c2.queue = c.queue ++ [e])) := by
  by_cases hc : c.queue.length = c.capacity
  · cases hq : c.queue with
    | nil => rw [Clipboard.add_of_nil c e hq hc] at h; exact absurd h (by simp)
    | cons hd t =>
      rw [Clipboard.add_of_eq c e hd t hq hc] at h
      cases h
      exact ⟨rfl, Or.inl ⟨hq ▸ hc, by simp, by simp⟩⟩
  · rw [Clipboard.add_of_ne c e hc] at h
    cases h
    exact ⟨rfl, Or.inr ⟨hc, rfl⟩⟩

/-- Characterization of a run of add calls: starting from any store whose
queue respects the capacity bound, with capacity at least 1, every add
succeeds and the final queue keeps the last `capacity` elements of the old
queue followed by the added entries, oldest first. -/
theorem Clipboard.addAll_spec (es : List Entry) :
    ∀ c : Clipboard, 1 ≤ c.capacity → c.queue.length ≤ c.capacity →
      ∃ c2, c.addAll es = some c2 ∧ c2.capacity = c.capacity ∧
        c2.queue =
          (c.queue ++ es).drop (c.queue.length + es.length - c.capacity) := by
  induction es with
  | nil =>
    intro c hcap hlen
    refine ⟨c, rfl, rfl, ?_⟩
    simp [Nat.sub_eq_zero_of_le hlen]
  | cons e rest ih =>
    intro c hcap hlen
    by_cases hc : c.queue.length = c.capacity
    · cases hq : c.queue with
      | nil => exfalso; rw [hq] at hc; simp at hc; omega
      | cons hd t =>
        have hstep := Clipboard.add_of_eq c e hd t hq hc
        have hc2 : t.length + 1 = c.capacity := by
          rw [hq] at hc; simpa using hc
        have hlen2 : (t ++ [e]).length ≤ c.capacity := by
          simp; omega
        obtain ⟨c2, h1, h2, h3⟩ :=
          ih { queue := t ++ [e], capacity := c.capacity } hcap hlen2
        refine ⟨c2, ?_, h2, ?_⟩
        · simp only [Clipboard.addAll, hstep]
          exact h1
        · rw [h3]
          show List.drop ((t ++ [e]).length + rest.length - c.capacity)
              ((t ++ [e]) ++ rest) =
            List.drop ((hd :: t).length + (e :: rest).length - c.capacity)
              (hd :: (t ++ e :: rest))
          have e1 : (t ++ [e]).length + rest.length - c.capacity =
              rest.length := by
            simp; omega
          have e2 : (hd :: t).length + (e :: rest).length - c.capacity =
              rest.length + 1 := by
            simp; omega
          rw [e1, e2, List.append_assoc, List.singleton_append,
            List.drop_succ_cons]
    · have hstep := Clipboard.add_of_ne c e hc
      have hlen2 : (c.queue ++ [e]).length ≤ c.capacity := by
        simp; omega
      obtain ⟨c2, h1, h2, h3⟩ :=
        ih { queue := c.queue ++ [e], capacity := c.capacity } hcap hlen2
      refine ⟨c2, ?_, h2, ?_⟩
      · simp only [Clipboard.addAll, hstep]
        exact h1
      · rw [h3]
        show List.drop ((c.queue ++ [e]).length + rest.length - c.capacity)
            ((c.queue ++ [e]) ++ rest) =
          List.drop (c.queue.length + (e :: rest).length - c.capacity)
            (c.queue ++ e :: rest)
        have e3 : (c.queue ++ [e]).length + rest.length =
            c.queue.length + (e :: rest).length := by
          simp; omega
        rw [e3, List.append_assoc, List.singleton_append]

/-- C1 counterexample: the claim quantifies over every capacity, but with
capacity 0 a single add hits Vec::remove(0) on the empty queue and panics,
so no snapshot of length min(1, 0) results. -/
theorem claim_C1_counterexample :
    ¬ ∃ c2, (emptyClipboard 0).addAll [Entry.mk "a"] = some c2 ∧
        c2.get_entries.length = min 1 0 := by
  rintro ⟨c2, h, -⟩
  have hn : (emptyClipboard 0).addAll [Entry.mk "a"] = none := rfl
  rw [hn] at h
  exact Option.noConfusion h

/-- C1 (amended): for every capacity C with C ≥ 1 and every sequence of N
add calls on the store that starts empty, every add succeeds and a
subsequent get_entries returns the last min(N, C) entries added, oldest
first, of length min(N, C). -/
theorem claim_C1_bounded_store (cap : Nat) (hcap : 1 ≤ cap)
    (es : List Entry) :
    ∃ c2, (emptyClipboard cap).addAll es = some c2 ∧
      c2.get_entries.length = min es.length cap ∧
      c2.get_entries = es.drop (es.length - min es.length cap) := by
  obtain ⟨c2, h1, h2, h3⟩ :=
    Clipboard.addAll_spec es (emptyClipboard cap) hcap (by simp [emptyClipboard])
  rw [show (emptyClipboard cap).queue = [] from rfl,
    show (emptyClipboard cap).capacity = cap from rfl] at h3
  simp only [List.nil_append, List.length_nil, Nat.zero_add] at h3
  refine ⟨c2, h1, ?_, ?_⟩
  · rw [Clipboard.get_entries, h3, List.length_drop]
    omega
  · rw [Clipboard.get_entries, h3]
    congr 1
    omega

/-- C1 witness: capacity 2 with three adds satisfies the amended claim. -/
theorem claim_C1_bounded_store_witness :
    1 ≤ 2 ∧
      ∃ c2, (emptyClipboard 2).addAll
            [Entry.mk "a", Entry.mk "b", Entry.mk "c"] = some c2 ∧
          c2.get_entries.length =
            min [Entry.mk "a", Entry.mk "b", Entry.mk "c"].length 2 ∧
          c2.get_entries =
            [Entry.mk "a", Entry.mk "b", Entry.mk "c"].drop
              ([Entry.mk "a", Entry.mk "b", Entry.mk "c"].length -
                min [Entry.mk "a", Entry.mk "b", Entry.mk "c"].length 2) :=
  ⟨by decide, claim_C1_bounded_store 2 (by decide)
    [Entry.mk "a", Entry.mk "b", Entry.mk "c"]⟩

/-- C2: in every state reachable from the empty store by add calls
(get_entries does not change state), the snapshot length is at most the
capacity, and the capacity field equals the configured capacity. -/
theorem claim_C2_invariant (cap : Nat) (c : Clipboard)
    (h : Reachable cap c) :
    c.get_entries.length ≤ cap ∧ c.capacity = cap := by
  induction h with
  | base => exact ⟨by simp [emptyClipboard, Clipboard.get_entries], rfl⟩
  | step c c2 e hr hadd ih =>
    obtain ⟨hlen, hcap⟩ := ih
    obtain ⟨hcap2, hcase⟩ := Clipboard.add_some hadd
    refine ⟨?_, by rw [hcap2, hcap]⟩
    rw [Clipboard.get_entries] at hlen ⊢
    rcases hcase with ⟨heq, hne, hq⟩ | ⟨hne, hq⟩
    · rw [hq]
      cases hqq : c.queue with
      | nil => exact absurd hqq hne
      | cons hd t =>
        rw [hqq] at heq
        simp at heq ⊢
        omega
    · rw [hq]
      simp
      omega

/-- C2 witness: the deployed store (capacity CLIPBOARD_SIZE = 10) in its
initial state satisfies the invariant. -/
theorem claim_C2_invariant_witness :
    Reachable 10 Clipboard.mkDefault ∧
      Clipboard.mkDefault.get_entries.length ≤ 10 ∧
      Clipboard.mkDefault.capacity = 10 :=
  have hr : Reachable 10 Clipboard.mkDefault := Reachable.base 10
  ⟨hr, claim_C2_invariant 10 Clipboard.mkDefault hr⟩

/-- C3 counterexample: with capacity 0, add on the (necessarily empty)
store does not succeed: it takes the eviction branch and panics on
Vec::remove(0) of the empty queue. -/
theorem claim_C3_counterexample :
    ¬ ∃ c2, (emptyClipboard 0).add (Entry.mk "b") = some c2 ∧
        c2.queue = [] := by
  rintro ⟨c2, h, -⟩
  have hn : (emptyClipboard 0).add (Entry.mk "b") = none := rfl
  rw [hn] at h
  exact Option.noConfusion h

/-- C3 (amended): add never fails for any well-formed entry when the
capacity is at least 1; with capacity 0 the eviction branch removes from
an empty queue and panics. -/
theorem claim_C3_add_total (c : Clipboard) (e : Entry)
    (hcap : 1 ≤ c.capacity) :
    ∃ c2, c.add e = some c2 := by
  by_cases hc : c.queue.length = c.capacity
  · cases hq : c.queue with
    | nil => exfalso; rw [hq] at hc; simp at hc; omega
    | cons hd t => exact ⟨_, Clipboard.add_of_eq c e hd t hq hc⟩
  · exact ⟨_, Clipboard.add_of_ne c e hc⟩

/-- C3 witness: add succeeds on the deployed default store. -/
theorem claim_C3_add_total_witness :
    1 ≤ Clipboard.mkDefault.capacity ∧
      ∃ c2, Clipboard.mkDefault.add (Entry.mk "x") = some c2 :=
  ⟨by decide,
    claim_C3_add_total Clipboard.mkDefault (Entry.mk "x") (by decide)⟩

/-- C4 counterexample: on the empty store with capacity 0, add does not
simply append the entry; it fails in the eviction branch. -/
theorem claim_C4_counterexample :
    ¬ ((emptyClipboard 0).add (Entry.mk "c") =
        some { queue := [Entry.mk "c"], capacity := 0 }) := by
  intro h
  have hn : (emptyClipboard 0).add (Entry.mk "c") = none := rfl
  rw [hn] at h
  exact Option.noConfusion h

/-- C4 (amended): for every store with capacity ≥ 1 that is currently
empty, add simply appends the new entry with no eviction, and get_entries
on an empty store returns the empty sequence. -/
theorem claim_C4_empty_add (c : Clipboard) (e : Entry)
    (hq : c.queue = []) (hcap : 1 ≤ c.capacity) :
    c.add e = some { queue := [e], capacity := c.capacity } ∧
      c.get_entries = [] := by
  have hne : c.queue.length ≠ c.capacity := by rw [hq]; simp; omega
  refine ⟨?_, by rw [Clipboard.get_entries, hq]⟩
  rw [Clipboard.add_of_ne c e hne, hq]
  rfl

/-- C4 witness: adding to the empty default store appends the entry. -/
theorem claim_C4_empty_add_witness :
    Clipboard.mkDefault.queue = [] ∧ 1 ≤ Clipboard.mkDefault.capacity ∧
      (Clipboard.mkDefault.add (Entry.mk "w") =
          some { queue := [Entry.mk "w"],
                 capacity := Clipboard.mkDefault.capacity } ∧
        Clipboard.mkDefault.get_entries = []) :=
  ⟨rfl, by decide,
    claim_C4_empty_add Clipboard.mkDefault (Entry.mk "w") rfl (by decide)⟩

/-- C5: from the empty store with capacity 2, adding "a", "b", "c" and
taking a snapshot yields exactly ["b", "c"] in that order. -/
theorem claim_C5_scenario :
    ((emptyClipboard 2).addAll
        [Entry.mk "a", Entry.mk "b", Entry.mk "c"]).map
        Clipboard.get_entries =
      some [Entry.mk "b", Entry.mk "c"] := by
  rfl

/-- C6: the snapshot operation is idempotent: two consecutive snapshots
with no intervening add return identical results and the same state. -/
theorem claim_C6_snapshot_idempotent (c : Clipboard) :
    c.snapshotOp.2.snapshotOp.1 = c.snapshotOp.1 ∧
      c.snapshotOp.2.snapshotOp.2 = c.snapshotOp.2 :=
  ⟨rfl, rfl⟩

/-- C9: a successful add preserves the capacity field, the snapshot
operation preserves the capacity field, and construction fixes the
capacity to CLIPBOARD_SIZE. -/
theorem claim_C9_capacity_frame (c c2 : Clipboard) (e : Entry)
    (h : c.add e = some c2) :
    c2.capacity = c.capacity ∧ c.snapshotOp.2.capacity = c.capacity ∧
      Clipboard.mkDefault.capacity = CLIPBOARD_SIZE :=
  ⟨(Clipboard.add_some h).1, rfl, rfl⟩

/-- C9 witness: adding to the default store preserves the capacity 10. -/
theorem claim_C9_capacity_frame_witness :
    Clipboard.mkDefault.add (Entry.mk "y") =
        some { queue := [Entry.mk "y"], capacity := CLIPBOARD_SIZE } ∧
      ({ queue := [Entry.mk "y"], capacity := CLIPBOARD_SIZE } :
            Clipboard).capacity = Clipboard.mkDefault.capacity ∧
        Clipboard.mkDefault.snapshotOp.2.capacity =
          Clipboard.mkDefault.capacity ∧
        Clipboard.mkDefault.capacity = CLIPBOARD_SIZE :=
  have h : Clipboard.mkDefault.add (Entry.mk "y") =
      some { queue := [Entry.mk "y"], capacity := CLIPBOARD_SIZE } := rfl
  ⟨h, claim_C9_capacity_frame Clipboard.mkDefault _ (Entry.mk "y") h⟩

/-- C10: get_entries is read-only: running the snapshot operation leaves
the store unchanged, and the returned sequence is the queue contents at
snapshot time (a copy: a value independent of later state changes). -/
theorem claim_C10_get_entries_readonly (c : Clipboard) :
    c.snapshotOp.2 = c ∧ c.get_entries = c.queue ∧
      c.snapshotOp.1 = c.queue :=
  ⟨rfl, rfl, rfl⟩

/-- Modelled from the spec: the keyed store variant (spec section 4.2) has
no implementation under src/ (the repository implements only the bounded
variant). An entry of the keyed store carries a unique identifier (a
128-bit random value, modelled as a natural number) and the text payload. -/
structure KEntry where
  id : Nat
  data : String
  deriving DecidableEq, Repr

/-- Modelled from the spec: the keyed store is a mapping from identifier to
entry, represented as the list of entries, newest first. -/
abbrev KeyedStore := List KEntry

/-- Modelled from the spec: the identifiers currently present in the keyed
store. -/
def KeyedStore.ids (s : KeyedStore) : List Nat :=
  s.map KEntry.id

/-- Modelled from the spec: Add(data) generates a new unique identifier not
currently present in the store, inserts the pair, and returns the
identifier; the generated identifier is made an explicit argument, with
freshness stated as a hypothesis where needed. -/
def KeyedStore.addWith (s : KeyedStore) (i : Nat) (d : String) : KeyedStore :=
  KEntry.mk i d :: s

/-- Modelled from the spec: the result of Get — the entry when the
identifier is present, NotFound otherwise. -/
inductive GetResult where
  | found (e : KEntry)
  | notFound
  deriving DecidableEq, Repr

/-- Modelled from the spec: Get(id) returns the entry for the identifier if
present and signals NotFound if absent. -/
def KeyedStore.get (s : KeyedStore) (i : Nat) : GetResult :=
  match s.find? (fun e => e.id == i) with
  | some e => GetResult.found e
  | none => GetResult.notFound

/-- C8: every identifier returned by Add is subsequently retrievable via
Get and yields exactly the data submitted, and Get on a never-issued
identifier returns NotFound. -/
theorem claim_C8_keyed_store (s : KeyedStore) (i : Nat) (d : String)
    (j : Nat) (hj : j ∉ s.ids) :
    (s.addWith i d).get i = GetResult.found (KEntry.mk i d) ∧
      s.get j = GetResult.notFound := by
  constructor
  · simp [KeyedStore.addWith, KeyedStore.get, List.find?_cons]
  · rw [KeyedStore.get]
    have hnone : s.find? (fun e => e.id == j) = none := by
      rw [List.find?_eq_none]
      intro e he
      simp only [beq_iff_eq]
      intro hid
      apply hj
      simp only [KeyedStore.ids, List.mem_map]
      exact ⟨e, he, hid⟩
    rw [hnone]

/-- C8 witness: on the empty keyed store, adding "x" under identifier 5
makes it retrievable, and identifier 7 is never issued so Get returns
NotFound. -/
theorem claim_C8_keyed_store_witness :
    (7 ∉ KeyedStore.ids []) ∧
      (KeyedStore.get (KeyedStore.addWith [] 5 "x") 5 =
          GetResult.found (KEntry.mk 5 "x") ∧
        KeyedStore.get [] 7 = GetResult.notFound) :=
  ⟨by simp [KeyedStore.ids],
    claim_C8_keyed_store [] 5 "x" 7 (by simp [KeyedStore.ids])⟩

end PastebinRs
